import Mathlib

/-!
Verification of the risk-combiner and confidence-interval helpers of the
DataQnA repository (src/nb/confidence.ipynb) against their specification.

The notebook's helper functions are pure real arithmetic over small sequences:

* `amean(xs)  = np.sum(xs) / n`            with `n = len(xs)`
* `gmean(xs)  = np.prod(xs) ** (1/n)`      with `n = len(xs)`
* `mean_plus_gmean(*xs, k=1) = amean(xs) + k * (gmean(xs) - 4)`
* `compute_ci(data)` = the 5th and 95th percentiles of
  `norm(np.mean(data), np.std(data) / np.sqrt(n))`.

They are embedded here over `ℝ`, with `**` as the real power `Real.rpow`.
IEEE-754 rounding is outside the model: the embedding gives the exact
real-arithmetic semantics of the same formulas.
-/

namespace DataQnA

/-- `amean(xs)` from src/nb/confidence.ipynb: `np.sum(xs) / n` with `n = len(xs)`. -/
noncomputable def amean (xs : List ℝ) : ℝ :=
  xs.sum / xs.length

/-- `gmean(xs)` from src/nb/confidence.ipynb: `np.prod(xs) ** (1/n)` with
`n = len(xs)`; the power is the real power `Real.rpow`. -/
noncomputable def gmean (xs : List ℝ) : ℝ :=
  xs.prod ^ ((1 : ℝ) / xs.length)

/-- `mean_plus_gmean(*xs, k=1)` from src/nb/confidence.ipynb:
`amean(xs) + k * (gmean(xs) - 4)`.  The neutral point `4` is a literal in the
source; only the weight `k` is a parameter of the Python function. -/
noncomputable def mean_plus_gmean (xs : List ℝ) (k : ℝ) : ℝ :=
  amean xs + k * (gmean xs - 4)

/-- The Python exception that a call of the notebook's combiner can raise. -/
inductive PyError
  | zeroDivisionError
  deriving DecidableEq

/-- A call `mean_plus_gmean(*xs, k=k)` as executed by Python: with an empty
argument tuple, `amean` returns NaN without raising (numpy emits only a
warning for `0.0/0`), and then the expression `1/n` inside `gmean` raises
`ZeroDivisionError`, so the whole call fails; with a nonempty tuple no
exception is raised and the value of the formula is returned.  (For a
negative product and `n ≥ 2` the float result would be NaN, a value outside
this real-valued model; every theorem below that touches non-positive scores
keeps the product non-negative.) -/
noncomputable def mean_plus_gmeanE (xs : List ℝ) (k : ℝ) : Except PyError ℝ :=
  if xs.length = 0 then Except.error PyError.zeroDivisionError
  else Except.ok (mean_plus_gmean xs k)

/-- The spec's contract, written from the spec's words for comparison with the
source's `mean_plus_gmean`: `combine(scores, k, c) = A + k * (G - c)` with the
neutral point `c` a caller-supplied parameter. -/
noncomputable def combine_spec (xs : List ℝ) (k c : ℝ) : ℝ :=
  amean xs + k * (gmean xs - c)

/-- `np.std(data)` as used by `compute_ci`: the population standard deviation
`sqrt(mean((x - m)^2))` (numpy default `ddof=0`), where `np.mean` computes the
same value as `amean`. -/
noncomputable def np_std (xs : List ℝ) : ℝ :=
  Real.sqrt ((xs.map (fun x => (x - amean xs) ^ 2)).sum / xs.length)

/-- `compute_ci(data)` from src/nb/confidence.ipynb:
`norm(m, s / np.sqrt(n)).ppf([0.05, 0.95])` with `m = np.mean(data)`,
`s = np.std(data)`, `n = len(data)`.  scipy's frozen normal checks its scale
argument: when `scale > 0` holds, `norm(m, se).ppf(p) = m + se * Phi_inv p`
by the location-scale law, where `Phi_inv` is the standard normal quantile
function; when the argcheck `scale > 0` fails (constant data gives
`np.std(data) = 0`), `ppf` returns NaN for every entry.  NaN is modelled as
`none`; `Phi_inv` is not code of this repository and is passed as a
parameter. -/
noncomputable def compute_ci (Phi_inv : ℝ → ℝ) (data : List ℝ) : List (Option ℝ) :=
  ([0.05, 0.95] : List ℝ).map
    (fun p =>
      if 0 < np_std data / Real.sqrt data.length
      then some (amean data + (np_std data / Real.sqrt data.length) * Phi_inv p)
      else none)

/-! ### Helper lemmas -/

/-- Taking the `n`-th root (real power by `1/n`) undoes an `n`-th power of a
nonnegative real. -/
lemma pow_rpow_inv (a : ℝ) (n : ℕ) (ha : 0 ≤ a) (hn : n ≠ 0) :
    (a ^ n) ^ ((1 : ℝ) / n) = a := by
  have hnR : ((n : ℝ)) ≠ 0 := Nat.cast_ne_zero.mpr hn
  rw [← Real.rpow_natCast a n, ← Real.rpow_mul ha, mul_one_div, div_self hnR, Real.rpow_one]

lemma amean_pair (a b : ℝ) : amean [a, b] = (a + b) / 2 := by
  unfold amean
  norm_num [List.sum_cons, List.sum_nil]

lemma gmean_pair (a b : ℝ) : gmean [a, b] = Real.sqrt (a * b) := by
  unfold gmean
  have h1 : ([a, b] : List ℝ).prod = a * b := by
    simp [List.prod_cons]
  have h2 : ((([a, b] : List ℝ).length : ℕ) : ℝ) = 2 := by norm_num
  rw [h1, h2, Real.sqrt_eq_rpow]

lemma amean_triple (a b c : ℝ) : amean [a, b, c] = (a + b + c) / 3 := by
  unfold amean
  norm_num [List.sum_cons, List.sum_nil]
  ring

lemma gmean_triple (a b c : ℝ) : gmean [a, b, c] = (a * b * c) ^ ((1 : ℝ) / 3) := by
  unfold gmean
  have h1 : ([a, b, c] : List ℝ).prod = a * b * c := by
    simp [List.prod_cons, mul_assoc]
  have h2 : ((([a, b, c] : List ℝ).length : ℕ) : ℝ) = 3 := by norm_num
  rw [h1, h2]

lemma amean_replicate {n : ℕ} (v : ℝ) (hn : n ≠ 0) :
    amean (List.replicate n v) = v := by
  unfold amean
  rw [List.sum_replicate, List.length_replicate, nsmul_eq_mul]
  exact mul_div_cancel_left₀ v (Nat.cast_ne_zero.mpr hn)

lemma gmean_replicate {n : ℕ} (v : ℝ) (hv : 0 ≤ v) (hn : n ≠ 0) :
    gmean (List.replicate n v) = v := by
  unfold gmean
  rw [List.prod_replicate, List.length_replicate]
  exact pow_rpow_inv v n hv hn

lemma mpg_equal_pair (v k : ℝ) (hv : 0 ≤ v) :
    mean_plus_gmean [v, v] k = v + k * (v - 4) := by
  have h : [v, v] = List.replicate 2 v := rfl
  unfold mean_plus_gmean
  rw [h, amean_replicate v (by norm_num), gmean_replicate v hv (by norm_num)]

lemma mpg_equal_triple (v k : ℝ) (hv : 0 ≤ v) :
    mean_plus_gmean [v, v, v] k = v + k * (v - 4) := by
  have h : [v, v, v] = List.replicate 3 v := rfl
  unfold mean_plus_gmean
  rw [h, amean_replicate v (by norm_num), gmean_replicate v hv (by norm_num)]

lemma gmean_neg33 : gmean [(-3 : ℝ), -3] = 3 := by
  rw [gmean_pair, show ((-3 : ℝ)) * (-3) = 3 ^ 2 by norm_num]
  exact Real.sqrt_sq (by norm_num)

lemma mpg_neg33 : mean_plus_gmean [(-3 : ℝ), -3] 1 = -4 := by
  unfold mean_plus_gmean
  rw [amean_pair, gmean_neg33]
  norm_num

lemma gmean_of_zero_mem (xs : List ℝ) (hne : xs ≠ []) (h0 : (0 : ℝ) ∈ xs) :
    gmean xs = 0 := by
  have hn : xs.length ≠ 0 := fun h => hne (List.length_eq_zero.mp h)
  unfold gmean
  rw [List.prod_eq_zero h0, Real.zero_rpow]
  exact one_div_ne_zero (Nat.cast_ne_zero.mpr hn)

/-! ### Claim theorems -/

/-- C1, counterexample: the claim quantifies over a caller-supplied neutral
point `c`, but the source fixes the neutral point to the literal `4`; at
`scores = [5, 5]`, `k = 1`, `c = 5` the code returns `6`, not
`A + k * (G - 5) = 5`. -/
theorem C1_cex :
    mean_plus_gmean [(5 : ℝ), 5] 1 ≠ amean [(5 : ℝ), 5] + 1 * (gmean [(5 : ℝ), 5] - 5) := by
  have ha : amean [(5 : ℝ), 5] = 5 := by rw [amean_pair]; norm_num
  have hg : gmean [(5 : ℝ), 5] = 5 := by
    have h : [(5 : ℝ), 5] = List.replicate 2 5 := rfl
    rw [h]
    exact gmean_replicate 5 (by norm_num) (by norm_num)
  rw [mean_plus_gmean, ha, hg]
  norm_num

/-- C1 (amended): for every nonempty sequence of real scores and every real
`k`, the combiner returns `R = A + k * (G - 4)`, where `A = sum/count` is the
arithmetic mean, `G = product^(1/count)` is the geometric mean, and the
neutral point is the source's literal `4`. -/
theorem C1_formula (xs : List ℝ) (k : ℝ) (_hne : xs ≠ []) :
    mean_plus_gmean xs k =
      xs.sum / (xs.length : ℝ) + k * (xs.prod ^ ((1 : ℝ) / (xs.length : ℝ)) - 4) := rfl

/-- C1 witness: the amended formula evaluated at `scores = [3, 5]`, `k = 1`. -/
theorem C1_formula_w :
    mean_plus_gmean [(3 : ℝ), 5] 1 =
      ([(3 : ℝ), 5].sum) / (([(3 : ℝ), 5].length : ℕ) : ℝ) +
        1 * (([(3 : ℝ), 5].prod) ^ ((1 : ℝ) / (([(3 : ℝ), 5].length : ℕ) : ℝ)) - 4) :=
  C1_formula [3, 5] 1 (by simp)

/-- C2, counterexample: a call with negative scores is not rejected: the code
performs no validation, and `mean_plus_gmean(-3, -3)` returns `-4.0`. -/
theorem C2_cex : mean_plus_gmeanE [(-3 : ℝ), -3] 1 = Except.ok (-4) := by
  rw [mean_plus_gmeanE, if_neg (by simp), mpg_neg33]

/-- C2 (amended): only the empty call fails, and it fails with
`ZeroDivisionError` (from `1/n` inside `gmean`), not with an invalid-argument
error; every nonempty call — including calls with zero or negative scores —
is not rejected and returns a value. -/
theorem C2_no_validation :
    (∀ k : ℝ, mean_plus_gmeanE [] k = Except.error PyError.zeroDivisionError) ∧
    (∀ (xs : List ℝ) (k : ℝ), xs ≠ [] → ∃ r : ℝ, mean_plus_gmeanE xs k = Except.ok r) := by
  constructor
  · intro k
    rfl
  · intro xs k hne
    have hn : ¬ xs.length = 0 := fun h => hne (List.length_eq_zero.mp h)
    exact ⟨mean_plus_gmean xs k, by rw [mean_plus_gmeanE, if_neg hn]⟩

/-- C2 witness: the empty call raises `ZeroDivisionError`, while the call on
`[0, 4]` is not rejected. -/
theorem C2_no_validation_w :
    mean_plus_gmeanE ([] : List ℝ) 1 = Except.error PyError.zeroDivisionError ∧
    ∃ r : ℝ, mean_plus_gmeanE [(0 : ℝ), 4] 1 = Except.ok r :=
  ⟨C2_no_validation.1 1, C2_no_validation.2 [0, 4] 1 (by simp)⟩

/-- C3, counterexample: the code's callable carries no caller-supplied neutral
point; at `scores = [4, 4]`, `k = 1` it returns `4`, while the claimed
contract with `c = 0` would give `8`. -/
theorem C3_cex : mean_plus_gmean [(4 : ℝ), 4] 1 ≠ combine_spec [(4 : ℝ), 4] 1 0 := by
  have ha : amean [(4 : ℝ), 4] = 4 := by rw [amean_pair]; norm_num
  have hg : gmean [(4 : ℝ), 4] = 4 := by
    have h : [(4 : ℝ), 4] = List.replicate 2 4 := rfl
    rw [h]
    exact gmean_replicate 4 (by norm_num) (by norm_num)
  rw [mean_plus_gmean, combine_spec, ha, hg]
  norm_num

/-- C3 (amended): the combiner is exposed as a single callable taking a
variable-length list of numeric scores plus one caller-supplied named
parameter, the weight `k` (default `1`); the neutral point is the hard-coded
literal `4`, so the realized contract is `combine(scores, k) =
combine_spec(scores, k, 4)`. -/
theorem C3_contract (xs : List ℝ) (k : ℝ) :
    mean_plus_gmean xs k = combine_spec xs k 4 := rfl

/-- C4, counterexample: the claim's neutral-point law quantifies over `c`, but
the code's neutral point is fixed at `4`: with every score equal to `c = 3`
and `k = 1` the code returns `2`, not `3 + 1 * (3 - 3) = 3`. -/
theorem C4_cex :
    mean_plus_gmean (List.replicate 2 (3 : ℝ)) 1 ≠ 3 + 1 * (3 - 3) := by
  rw [mean_plus_gmean, amean_replicate 3 (by norm_num),
    gmean_replicate 3 (by norm_num) (by norm_num)]
  norm_num

/-- C4 (amended): for every nonempty constant sequence of a positive value `v`
and every `k`, the result is `v + k * (v - 4)`; in particular, when every
score equals the code's neutral point `4`, the result is `4` for any `k`. -/
theorem C4_equal_scores (n : ℕ) (v k : ℝ) (hn : n ≠ 0) (hv : 0 < v) :
    mean_plus_gmean (List.replicate n v) k = v + k * (v - 4) ∧
    mean_plus_gmean (List.replicate n (4 : ℝ)) k = 4 := by
  constructor
  · rw [mean_plus_gmean, amean_replicate v hn, gmean_replicate v hv.le hn]
  · rw [mean_plus_gmean, amean_replicate 4 hn, gmean_replicate 4 (by norm_num) hn]
    ring

/-- C4 witness: the amended law evaluated at `n = 2`, `v = 5`, `k = 1`:
`combine([5, 5], 1) = 5 + 1 * (5 - 4)` and `combine([4, 4], 1) = 4`. -/
theorem C4_equal_scores_w :
    mean_plus_gmean (List.replicate 2 (5 : ℝ)) 1 = 5 + 1 * (5 - 4) ∧
    mean_plus_gmean (List.replicate 2 (4 : ℝ)) 1 = 4 :=
  C4_equal_scores 2 5 1 (by norm_num) (by norm_num)

/-- C6: for every nonempty sequence of scores and all `k`, the combiner is
invariant under every permutation of the input sequence. -/
theorem C6_perm_invariant (xs ys : List ℝ) (k : ℝ) (_hne : xs ≠ []) (h : xs.Perm ys) :
    mean_plus_gmean xs k = mean_plus_gmean ys k := by
  unfold mean_plus_gmean amean gmean
  rw [h.sum_eq, h.prod_eq, h.length_eq]

/-- C6 witness: `combine([3, 5], 1) = combine([5, 3], 1)`. -/
theorem C6_perm_invariant_w :
    mean_plus_gmean [(3 : ℝ), 5] 1 = mean_plus_gmean [(5 : ℝ), 3] 1 :=
  C6_perm_invariant [3, 5] [5, 3] 1 (by simp) (List.Perm.swap 5 3 [])

/-- C8: `mean_plus_gmean` performs no input validation: `mean_plus_gmean(-3, -3)`
returns `-4.0`, and every nonempty call whose scores include a zero or negative
entry with non-negative product is not rejected; when some score is `0`, the
result is `amean + k * (0 - 4)`. -/
theorem C8_no_checks :
    mean_plus_gmeanE [(-3 : ℝ), -3] 1 = Except.ok (-4) ∧
    ∀ (xs : List ℝ) (k : ℝ), xs ≠ [] → (∃ x ∈ xs, x ≤ 0) → 0 ≤ xs.prod →
      (∃ r : ℝ, mean_plus_gmeanE xs k = Except.ok r) ∧
      ((0 : ℝ) ∈ xs → mean_plus_gmeanE xs k = Except.ok (amean xs + k * (0 - 4))) := by
  constructor
  · rw [mean_plus_gmeanE, if_neg (by simp), mpg_neg33]
  · intro xs k hne _hnp _hpr
    have hn : ¬ xs.length = 0 := fun h => hne (List.length_eq_zero.mp h)
    constructor
    · exact ⟨mean_plus_gmean xs k, by rw [mean_plus_gmeanE, if_neg hn]⟩
    · intro h0
      rw [mean_plus_gmeanE, if_neg hn, mean_plus_gmean, gmean_of_zero_mem xs hne h0]

/-- C8 witness: the call on `[0, 4]` with `k = 1` is not rejected and returns
`amean([0, 4]) + 1 * (0 - 4)`. -/
theorem C8_no_checks_w :
    mean_plus_gmeanE [(0 : ℝ), 4] 1 = Except.ok (amean [(0 : ℝ), 4] + 1 * (0 - 4)) :=
  (C8_no_checks.2 [0, 4] 1 (by simp) ⟨0, by simp, le_refl 0⟩ (by norm_num [List.prod_cons])).2
    (by simp)

/-! ### Numeric bounds for cube roots -/

lemma rpow_third_le (x b : ℝ) (hx : 0 ≤ x) (hb : 0 ≤ b) (h : x ≤ b ^ 3) :
    x ^ ((1 : ℝ) / 3) ≤ b := by
  calc x ^ ((1 : ℝ) / 3) ≤ (b ^ 3) ^ ((1 : ℝ) / 3) :=
        Real.rpow_le_rpow hx h (by norm_num)
    _ = (b ^ (3 : ℕ)) ^ ((1 : ℝ) / ((3 : ℕ) : ℝ)) := by norm_num
    _ = b := pow_rpow_inv b 3 hb (by norm_num)

lemma le_rpow_third (x a : ℝ) (ha : 0 ≤ a) (h : a ^ 3 ≤ x) :
    a ≤ x ^ ((1 : ℝ) / 3) := by
  calc a = (a ^ (3 : ℕ)) ^ ((1 : ℝ) / ((3 : ℕ) : ℝ)) :=
        (pow_rpow_inv a 3 ha (by norm_num)).symm
    _ = (a ^ 3) ^ ((1 : ℝ) / 3) := by norm_num
    _ ≤ x ^ ((1 : ℝ) / 3) := Real.rpow_le_rpow (by positivity) h (by norm_num)

lemma sqrt15_bounds : 3.8729833 ≤ Real.sqrt 15 ∧ Real.sqrt 15 ≤ 3.8729834 := by
  constructor
  · rw [Real.le_sqrt (by norm_num) (by norm_num)]
    norm_num
  · rw [Real.sqrt_le_left (by norm_num)]
    norm_num

lemma sqrt108_bounds : 10.3923048 ≤ Real.sqrt 108 ∧ Real.sqrt 108 ≤ 10.3923049 := by
  constructor
  · rw [Real.le_sqrt (by norm_num) (by norm_num)]
    norm_num
  · rw [Real.sqrt_le_left (by norm_num)]
    norm_num

lemma root80_bounds :
    4.3088693 ≤ (80 : ℝ) ^ ((1 : ℝ) / 3) ∧ (80 : ℝ) ^ ((1 : ℝ) / 3) ≤ 4.3088694 :=
  ⟨le_rpow_third 80 4.3088693 (by norm_num) (by norm_num),
    rpow_third_le 80 4.3088694 (by norm_num) (by norm_num) (by norm_num)⟩

lemma root100_bounds :
    4.6415888 ≤ (100 : ℝ) ^ ((1 : ℝ) / 3) ∧ (100 : ℝ) ^ ((1 : ℝ) / 3) ≤ 4.6415889 :=
  ⟨le_rpow_third 100 4.6415888 (by norm_num) (by norm_num),
    rpow_third_le 100 4.6415889 (by norm_num) (by norm_num) (by norm_num)⟩

/-- C5: with weight `k = 1` and the code's neutral point `4`, the combiner
returns exactly `4` on `[4,4]`, `6` on `[5,5]`, `2` on `[3,3]`, `4` on
`[4,4,4]` and `6` on `[5,5,5]`, and returns values within `10⁻⁶` of
`3.872983` on `[3,5]`, `16.892305` on `[9,12]`, `4.642203` on `[4,4,5]` and
`5.308256` on `[4,5,5]` (exact real arithmetic; IEEE rounding is outside the
model). -/
theorem C5_concrete_cases :
    mean_plus_gmean [(4 : ℝ), 4] 1 = 4 ∧
    mean_plus_gmean [(5 : ℝ), 5] 1 = 6 ∧
    mean_plus_gmean [(3 : ℝ), 3] 1 = 2 ∧
    mean_plus_gmean [(4 : ℝ), 4, 4] 1 = 4 ∧
    mean_plus_gmean [(5 : ℝ), 5, 5] 1 = 6 ∧
    |mean_plus_gmean [(3 : ℝ), 5] 1 - 3.872983| < 1e-6 ∧
    |mean_plus_gmean [(9 : ℝ), 12] 1 - 16.892305| < 1e-6 ∧
    |mean_plus_gmean [(4 : ℝ), 4, 5] 1 - 4.642203| < 1e-6 ∧
    |mean_plus_gmean [(4 : ℝ), 5, 5] 1 - 5.308256| < 1e-6 := by
  refine ⟨?_, ?_, ?_, ?_, ?_, ?_, ?_, ?_, ?_⟩
  · rw [mpg_equal_pair 4 1 (by norm_num)]
    norm_num
  · rw [mpg_equal_pair 5 1 (by norm_num)]
    norm_num
  · rw [mpg_equal_pair 3 1 (by norm_num)]
    norm_num
  · rw [mpg_equal_triple 4 1 (by norm_num)]
    norm_num
  · rw [mpg_equal_triple 5 1 (by norm_num)]
    norm_num
  · have h : mean_plus_gmean [(3 : ℝ), 5] 1 = Real.sqrt 15 := by
      rw [mean_plus_gmean, amean_pair, gmean_pair,
        show ((3 : ℝ)) * 5 = 15 by norm_num]
      ring
    rw [h, abs_lt]
    obtain ⟨h1, h2⟩ := sqrt15_bounds
    constructor <;> linarith
  · have h : mean_plus_gmean [(9 : ℝ), 12] 1 = 6.5 + Real.sqrt 108 := by
      rw [mean_plus_gmean, amean_pair, gmean_pair,
        show ((9 : ℝ)) * 12 = 108 by norm_num]
      ring
    rw [h, abs_lt]
    obtain ⟨h1, h2⟩ := sqrt108_bounds
    constructor <;> linarith
  · have h : mean_plus_gmean [(4 : ℝ), 4, 5] 1 = 13 / 3 + ((80 : ℝ) ^ ((1 : ℝ) / 3) - 4) := by
      rw [mean_plus_gmean, amean_triple, gmean_triple,
        show ((4 : ℝ)) * 4 * 5 = 80 by norm_num]
      ring
    rw [h, abs_lt]
    obtain ⟨h1, h2⟩ := root80_bounds
    constructor <;> linarith
  · have h : mean_plus_gmean [(4 : ℝ), 5, 5] 1 = 14 / 3 + ((100 : ℝ) ^ ((1 : ℝ) / 3) - 4) := by
      rw [mean_plus_gmean, amean_triple, gmean_triple,
        show ((4 : ℝ)) * 5 * 5 = 100 by norm_num]
      ring
    rw [h, abs_lt]
    obtain ⟨h1, h2⟩ := root100_bounds
    constructor <;> linarith

/-- AM-GM for the notebook's list-based means: over positive scores the
geometric mean is at most the arithmetic mean. -/
lemma gmean_le_amean (xs : List ℝ) (hne : xs ≠ []) (hpos : ∀ x ∈ xs, 0 < x) :
    gmean xs ≤ amean xs := by
  have hn : xs.length ≠ 0 := fun h0 => hne (List.length_eq_zero.mp h0)
  have hnR : (0 : ℝ) < (xs.length : ℝ) := by
    exact_mod_cast Nat.pos_of_ne_zero hn
  have hz : ∀ i ∈ (Finset.univ : Finset (Fin xs.length)), 0 ≤ xs.get i :=
    fun i _ => (hpos _ (xs.get_mem i.1 i.2)).le
  have hw : ∀ i ∈ (Finset.univ : Finset (Fin xs.length)), (0 : ℝ) ≤ 1 :=
    fun _ _ => zero_le_one
  have hsum : (0 : ℝ) < ∑ _i : Fin xs.length, (1 : ℝ) := by
    simpa [Finset.sum_const, Finset.card_univ] using hnR
  have key := Real.geom_mean_le_arith_mean Finset.univ (fun _ => (1 : ℝ)) xs.get hw hsum hz
  have hprod : (∏ i, xs.get i) = xs.prod := by
    conv_rhs => rw [← List.ofFn_get xs]
    rw [List.prod_ofFn]
  have hsum2 : (∑ i, xs.get i) = xs.sum := by
    conv_rhs => rw [← List.ofFn_get xs]
    rw [List.sum_ofFn]
  simp only [Real.rpow_one, one_mul, Finset.sum_const, Finset.card_univ,
    Fintype.card_fin, nsmul_eq_mul, mul_one] at key
  rw [hprod, hsum2] at key
  rw [gmean, amean, one_div]
  exact key

/-- C7: for positive scores with at least one unequal pair, the geometric mean
is at most the arithmetic mean; consequently, for `k ≥ 0` and any `c`, the
spec's contract satisfies `combine(scores, k, c) ≤ A + k * (A - c)`, and the
source combiner satisfies the same bound at its fixed neutral point `4`. -/
theorem C7_am_gm (xs : List ℝ) (k c : ℝ) (hpos : ∀ x ∈ xs, 0 < x)
    (hneq : ∃ a ∈ xs, ∃ b ∈ xs, a ≠ b) (hk : 0 ≤ k) :
    gmean xs ≤ amean xs ∧
    combine_spec xs k c ≤ amean xs + k * (amean xs - c) ∧
    mean_plus_gmean xs k ≤ amean xs + k * (amean xs - 4) := by
  have hne : xs ≠ [] := by
    rintro rfl
    obtain ⟨a, ha, -⟩ := hneq
    exact List.not_mem_nil a ha
  have h := gmean_le_amean xs hne hpos
  refine ⟨h, ?_, ?_⟩
  · have h2 : k * (gmean xs - c) ≤ k * (amean xs - c) :=
      mul_le_mul_of_nonneg_left (by linarith) hk
    rw [combine_spec]
    linarith
  · have h2 : k * (gmean xs - 4) ≤ k * (amean xs - 4) :=
      mul_le_mul_of_nonneg_left (by linarith) hk
    rw [mean_plus_gmean]
    linarith

/-- C7 witness: the bound evaluated at `scores = [3, 5]`, `k = 1`, `c = 0`. -/
theorem C7_am_gm_w :
    gmean [(3 : ℝ), 5] ≤ amean [(3 : ℝ), 5] ∧
    combine_spec [(3 : ℝ), 5] 1 0 ≤ amean [(3 : ℝ), 5] + 1 * (amean [(3 : ℝ), 5] - 0) ∧
    mean_plus_gmean [(3 : ℝ), 5] 1 ≤ amean [(3 : ℝ), 5] + 1 * (amean [(3 : ℝ), 5] - 4) :=
  C7_am_gm [3, 5] 1 0 (by norm_num) ⟨3, by simp, 5, by simp, by norm_num⟩ zero_le_one

/-- C9: over strictly positive scores and for `k ≥ 0`, increasing any single
score while holding the others fixed does not decrease the arithmetic mean,
the geometric mean, or the combined result. -/
theorem C9_monotone (pre post : List ℝ) (x y k : ℝ)
    (hpre : ∀ a ∈ pre, 0 < a) (hpost : ∀ a ∈ post, 0 < a)
    (hx : 0 < x) (hxy : x ≤ y) (hk : 0 ≤ k) :
    amean (pre ++ x :: post) ≤ amean (pre ++ y :: post) ∧
    gmean (pre ++ x :: post) ≤ gmean (pre ++ y :: post) ∧
    mean_plus_gmean (pre ++ x :: post) k ≤ mean_plus_gmean (pre ++ y :: post) k := by
  have hlen : (pre ++ x :: post).length = (pre ++ y :: post).length := by simp
  have hlpos : (0 : ℝ) < ((pre ++ x :: post).length : ℝ) := by
    have h0 : 0 < (pre ++ x :: post).length := by simp
    exact_mod_cast h0
  have hsum : (pre ++ x :: post).sum ≤ (pre ++ y :: post).sum := by
    rw [List.sum_append, List.sum_cons, List.sum_append, List.sum_cons]
    linarith
  have hppre : (0 : ℝ) ≤ pre.prod := (List.prod_pos hpre).le
  have hppost : (0 : ℝ) ≤ post.prod := (List.prod_pos hpost).le
  have hprodx : (0 : ℝ) ≤ (pre ++ x :: post).prod := by
    rw [List.prod_append, List.prod_cons]
    have := mul_nonneg hx.le hppost
    exact mul_nonneg hppre this
  have hprod : (pre ++ x :: post).prod ≤ (pre ++ y :: post).prod := by
    rw [List.prod_append, List.prod_cons, List.prod_append, List.prod_cons]
    exact mul_le_mul_of_nonneg_left (mul_le_mul_of_nonneg_right hxy hppost) hppre
  have hA : amean (pre ++ x :: post) ≤ amean (pre ++ y :: post) := by
    rw [amean, amean, ← hlen]
    exact (div_le_div_iff_of_pos_right hlpos).mpr hsum
  have hG : gmean (pre ++ x :: post) ≤ gmean (pre ++ y :: post) := by
    rw [gmean, gmean, ← hlen]
    exact Real.rpow_le_rpow hprodx hprod (by positivity)
  refine ⟨hA, hG, ?_⟩
  have h2 : k * (gmean (pre ++ x :: post) - 4) ≤ k * (gmean (pre ++ y :: post) - 4) :=
    mul_le_mul_of_nonneg_left (by linarith) hk
  rw [mean_plus_gmean, mean_plus_gmean]
  linarith

/-- C9 witness: raising the second of two scores from `4` to `5` does not
decrease the combined result (`k = 1`). -/
theorem C9_monotone_w :
    amean ([(4 : ℝ)] ++ 4 :: []) ≤ amean ([(4 : ℝ)] ++ 5 :: []) ∧
    gmean ([(4 : ℝ)] ++ 4 :: []) ≤ gmean ([(4 : ℝ)] ++ 5 :: []) ∧
    mean_plus_gmean ([(4 : ℝ)] ++ 4 :: []) 1 ≤ mean_plus_gmean ([(4 : ℝ)] ++ 5 :: []) 1 :=
  C9_monotone [4] [] 4 5 1 (by norm_num) (by simp) (by norm_num) (by norm_num) zero_le_one

lemma np_std_single2 : np_std [(2 : ℝ)] = 0 := by
  unfold np_std
  norm_num [amean, List.sum_cons, List.sum_nil, List.map_cons, List.map_nil, Real.sqrt_zero]

lemma np_std_13 : np_std [(1 : ℝ), 3] = 1 := by
  unfold np_std
  rw [amean_pair]
  norm_num [List.map_cons, List.map_nil, List.sum_cons, List.sum_nil, Real.sqrt_one]

/-- C10, counterexample: on the nonempty constant sequence `[2]` the sample
standard deviation is `0`, scipy's `scale > 0` argcheck fails, and both
entries of the result are NaN (`none`): the program does not return a real
two-element interval there, refuting the claim's quantification over every
nonempty data sequence.  (The quantile stand-in is irrelevant on this path.) -/
theorem C10_cex :
    compute_ci (fun p => 2 * p - 1) [(2 : ℝ)] = [none, none] ∧
    ¬ ∃ low high : ℝ,
        compute_ci (fun p => 2 * p - 1) [(2 : ℝ)] = [some low, some high] := by
  have hse : np_std [(2 : ℝ)] / Real.sqrt (([(2 : ℝ)] : List ℝ).length) = 0 := by
    rw [np_std_single2]
    simp
  have h : compute_ci (fun p => 2 * p - 1) [(2 : ℝ)] = [none, none] := by
    rw [compute_ci, List.map_cons, List.map_cons, List.map_nil,
      if_neg (by rw [hse]; exact lt_irrefl 0), if_neg (by rw [hse]; exact lt_irrefl 0)]
  refine ⟨h, ?_⟩
  rintro ⟨low, high, hcontra⟩
  rw [h] at hcontra
  simp at hcontra

/-- C10 (amended): for every nonempty data sequence whose sample standard
deviation is positive, `compute_ci` returns a two-element interval
`[low, high]` symmetric about the sample mean, with `low ≤ high`; the
hypotheses on `Phi_inv` are the symmetry `Φ⁻¹(0.05) = -Φ⁻¹(0.95)` and the
sign `Φ⁻¹(0.95) ≥ 0` of the standard normal quantile.  (For constant data the
standard deviation is `0` and both entries are NaN, per the counterexample.) -/
theorem C10_ci_symmetric (Phi_inv : ℝ → ℝ) (data : List ℝ) (hne : data ≠ [])
    (hsd : 0 < np_std data)
    (hsym : Phi_inv 0.05 = -Phi_inv 0.95) (hq : 0 ≤ Phi_inv 0.95) :
    ∃ low high : ℝ, compute_ci Phi_inv data = [some low, some high] ∧
      amean data - low = high - amean data ∧ low ≤ high := by
  have hn : 0 < data.length := List.length_pos.mpr hne
  have hnR : (0 : ℝ) < (data.length : ℝ) := by exact_mod_cast hn
  have hse : 0 < np_std data / Real.sqrt data.length :=
    div_pos hsd (Real.sqrt_pos.mpr hnR)
  refine ⟨amean data + (np_std data / Real.sqrt data.length) * Phi_inv 0.05,
    amean data + (np_std data / Real.sqrt data.length) * Phi_inv 0.95, ?_, ?_, ?_⟩
  · rw [compute_ci, List.map_cons, List.map_cons, List.map_nil, if_pos hse, if_pos hse]
  · rw [hsym]
    ring
  · have h1 : Phi_inv 0.05 ≤ Phi_inv 0.95 := by
      rw [hsym]
      linarith
    have h2 := mul_le_mul_of_nonneg_left h1 hse.le
    linarith

/-- C10 witness: `compute_ci` on `data = [1, 3]` (standard deviation `1`) with
the symmetric quantile stand-in `Φ⁻¹(p) = 2p - 1`. -/
theorem C10_ci_symmetric_w :
    ∃ low high : ℝ, compute_ci (fun p => 2 * p - 1) [(1 : ℝ), 3] = [some low, some high] ∧
      amean [(1 : ℝ), 3] - low = high - amean [(1 : ℝ), 3] ∧ low ≤ high :=
  C10_ci_symmetric (fun p => 2 * p - 1) [1, 3] (by simp)
    (by rw [np_std_13]; norm_num) (by norm_num) (by norm_num)

end DataQnA
